import Mathlib

set_option maxRecDepth 10000

/-!
Verification development for the Weight Roster CSV import/export engine
(`scripts/roster_csv_tool.py`).  The engine's data model and operations are
embedded shallowly: pandas cells become an explicit sum type, Python dicts
become insertion-ordered association lists with Python-dict update semantics,
and the import/export/validate loops become structural folds mirroring the
source line by line.
-/

/-- Raw content of one tabular cell as pandas delivers it to the engine:
missing (`NaN`), a numeric cell (held as an exact rational; pandas produces
floats for numeric columns, and only finite decimals arise from CSV text,
which a rational represents exactly), or a text cell. -/
inductive RawCell where
  | na : RawCell
  | num : Rat → RawCell
  | str : String → RawCell
deriving DecidableEq

/-- Characters removed by Python's `str.strip()` (ASCII whitespace; the
engine's data never contains the rarer Unicode space characters). -/
def isPySpace (c : Char) : Bool :=
  c == ' ' || c == '\t' || c == '\n' || c == '\r' || c == '\x0b' || c == '\x0c'

/-- Model of Python's `str.strip()` on a character list. -/
def pyStripList (l : List Char) : List Char :=
  ((l.dropWhile isPySpace).reverse.dropWhile isPySpace).reverse

/-- Model of Python's `str.strip()`. -/
def pyStrip (s : String) : String := ⟨pyStripList s.data⟩

/-- Model of Python's `str.lower()` on one character (ASCII range; the cell
literals the engine compares against are all ASCII). -/
def pyLowerChar (c : Char) : Char :=
  if 65 ≤ c.toNat ∧ c.toNat ≤ 90 then Char.ofNat (c.toNat + 32) else c

/-- Model of Python's `str.lower()`. -/
def pyLower (s : String) : String := ⟨s.data.map pyLowerChar⟩

/-- Decimal digits of a fraction in `[0, 1)`, as Python prints them for a
float that is a finite decimal (fuel-bounded; floats are finite decimals). -/
def fracDigits : Nat → Rat → String
  | 0, _ => ""
  | fuel + 1, r =>
    if r = 0 then ""
    else
      let d : Int := (r * 10).floor
      toString d ++ fracDigits fuel (r * 10 - (d : Rat))

/-- Model of Python's `str()` on a numeric cell: integer-typed cells print
without a decimal point, float cells print their (finite) decimal expansion. -/
def pyNumRepr (q : Rat) : String :=
  if q.den = 1 then toString q.num
  else (if q < 0 then "-" else "") ++ toString |q|.floor ++ "." ++ fracDigits 30 (|q| - (|q|.floor : Rat))

/-- Model of Python's `str()` applied to a pandas cell: a missing value
renders as the literal `nan`, text renders as itself. -/
def pyStr : RawCell → String
  | .na => "nan"
  | .num q => pyNumRepr q
  | .str s => s

/-- Python's `int()` on a rational: truncation toward zero. -/
def pytrunc (q : Rat) : Int := q.num.tdiv (q.den : Int)

/-- Embeds `parse_value` (roster_csv_tool.py lines 83-102).  A decode failure
(`raise ValueError`) is an `Except.error` carrying the offending raw cell. -/
def parse_value : RawCell → Except RawCell Int
  | .na => .ok 0
  | .num q =>
    let val := pytrunc q
    if val = 1 ∨ val = 0 ∨ val = -1 ∨ val = 2 then .ok val
    else .error (.num q)
  | .str s =>
    let str_val := pyLower (pyStrip s)
    if str_val = "" ∨ str_val = "nan" ∨ str_val = "none" then .ok 0
    else if str_val = "w" then .ok 2
    else if str_val = "1" then .ok 1
    else if str_val = "0" then .ok 0
    else if str_val = "-1" then .ok (-1)
    else if str_val = "2" then .ok 2
    else .error (.str s)

/-- Embeds `format_value` (lines 105-109). -/
def format_value (value : Int) : String :=
  if value = 2 then "w" else toString value

/-- Success tester for a decode result. -/
def isOkB : Except RawCell Int → Bool
  | .ok _ => true
  | .error _ => false

/-- Recovered value of a decode result: the parsed value on success, and on
failure the fallback `0` used by the importer. -/
def okOr0 : Except RawCell Int → Int
  | .ok v => v
  | .error _ => 0

/-- Value of a JSON roster record entry: either a capability value (the flat
legacy store shape stores integers directly under `"{skill}_{mod}"` keys) or a
nested mapping (the canonical hierarchical shape `{mod: {skill: value}}`). -/
inductive JVal where
  | num : Int → JVal
  | obj : List (String × JVal) → JVal

/-- One worker's record: an insertion-ordered JSON object. -/
abbrev JRec := List (String × JVal)

/-- The roster store: worker name to record, insertion-ordered. -/
abbrev Roster := List (String × JRec)

/-- Lookup in an insertion-ordered association list (Python `dict.get`). -/
def dictGet {α : Type} : List (String × α) → String → Option α
  | [], _ => none
  | (k', v') :: t, k => if k' = k then some v' else dictGet t k

/-- Assignment into an insertion-ordered association list (Python
`d[k] = v`): replaces the value in place when the key exists, else appends. -/
def dictSet {α : Type} : List (String × α) → String → α → List (String × α)
  | [], k, v => [(k, v)]
  | (k', v') :: t, k, v => if k' = k then (k, v) :: t else (k', v') :: dictSet t k v

/-- The flat tabular file after pandas parsing: a header (`df.columns`) and
one list of cells per row, aligned positionally with the header. -/
structure Table where
  cols : List String
  rows : List (List RawCell)
deriving DecidableEq

/-- Cell of a row at a named column: positional lookup against the header,
with pandas's `NaN` padding when the row is shorter than the header. -/
def cellAt : List String → List RawCell → String → RawCell
  | [], _, _ => .na
  | c' :: cs, r, c => if c' = c then r.headD .na else cellAt cs r.tail c

/-- The Schema Resolver's column vocabulary (without the leading `Worker`):
for each modality, for each skill, the key `skill ++ "_" ++ mod`,
modality-major, skill-minor (source loops at lines 122-125, 208-211,
272-275). -/
def colKeys (skills : List String) : List String → List String
  | [] => []
  | mod :: ms => (skills.map fun skill => skill ++ "_" ++ mod) ++ colKeys skills ms

/-- One cell of the record being built during import (lines 211-221): a
present column decodes with recovery (failure yields value 0 and one counted
error), an absent column yields 0 with no error. -/
def buildCell (cols : List String) (r : List RawCell) (col : String) : Int × Nat :=
  if col ∈ cols then
    match parse_value (cellAt cols r col) with
    | .ok v => (v, 0)
    | .error _ => (0, 1)
  else (0, 0)

/-- Inner loop of the import record build (lines 210-221): fill one
modality's skill dictionary, accumulating the error count. -/
def bmStep (cols : List String) (r : List RawCell) (mod : String)
    (acc : List (String × JVal) × Nat) (skill : String) : List (String × JVal) × Nat :=
  let c := buildCell cols r (skill ++ "_" ++ mod)
  (dictSet acc.1 skill (JVal.num c.1), acc.2 + c.2)

/-- One modality's freshly built skill dictionary plus its error count. -/
def buildModRow (skills cols : List String) (r : List RawCell) (mod : String) :
    List (String × JVal) × Nat :=
  skills.foldl (bmStep cols r mod) ([], 0)

/-- Outer loop of the import record build (lines 207-221): assemble the
hierarchical `{mod: {skill: value}}` record for one row. -/
def brStep (skills cols : List String) (r : List RawCell)
    (acc : JRec × Nat) (mod : String) : JRec × Nat :=
  let m := buildModRow skills cols r mod
  (dictSet acc.1 mod (JVal.obj m.1), acc.2 + m.2)

/-- The freshly built hierarchical record for one row plus its decode-error
count (source lines 206-221). -/
def buildRecord (skills mods cols : List String) (r : List RawCell) : JRec × Nat :=
  mods.foldl (brStep skills cols r) ([], 0)

/-- Merge policy of an import (`--mode replace|merge|add_only`). -/
inductive Mode where
  | replace : Mode
  | merge : Mode
  | add_only : Mode
deriving DecidableEq

/-- Import counters (source line 193). -/
structure Stats where
  added : Nat
  updated : Nat
  skipped : Nat
  errors : Nat
deriving DecidableEq

/-- Trimmed rendering of a row's `Worker` cell (line 196). -/
def rowName (cols : List String) (r : List RawCell) : String :=
  pyStrip (pyStr (cellAt cols r "Worker"))

/-- A name the import drops silently: empty after trimming, or the rendering
of a missing value (line 197). -/
def isBlankName (n : String) : Bool := n == "" || n == "nan"

/-- The roster the import consults for collision/update checks: loaded only
when the policy is not Replace (line 190). -/
def existingOf (mode : Mode) (prior : Roster) : Roster :=
  if mode = Mode.replace then [] else prior

/-- One iteration of the import row loop (lines 195-228). -/
def importStep (skills mods cols : List String) (existing : Roster) (mode : Mode)
    (acc : Roster × Stats) (r : List RawCell) : Roster × Stats :=
  let name := rowName cols r
  if isBlankName name then acc
  else if mode = Mode.add_only ∧ (dictGet existing name).isSome then
    (acc.1, { acc.2 with skipped := acc.2.skipped + 1 })
  else
    let b := buildRecord skills mods cols r
    let r2 := dictSet acc.1 name b.1
    if (dictGet existing name).isSome then
      (r2, { acc.2 with updated := acc.2.updated + 1, errors := acc.2.errors + b.2 })
    else
      (r2, { acc.2 with added := acc.2.added + 1, errors := acc.2.errors + b.2 })

/-- Embeds `import_from_csv` (lines 164-239) after the file has been read:
requires the `Worker` column (line 185, else the command aborts), consults
the prior store only for non-Replace policies, and folds the row loop over
the table.  Returns the reconstructed store and the counters. -/
def import_from_csv (skills mods : List String) (prior : Roster) (mode : Mode)
    (t : Table) : Option (Roster × Stats) :=
  if "Worker" ∈ t.cols then
    let existing := existingOf mode prior
    let start : Roster := if mode = Mode.replace then [] else existing
    some (t.rows.foldl (importStep skills mods t.cols existing mode) (start, ⟨0, 0, 0, 0⟩))
  else none

/-- Rows the import actually builds and stores: non-blank name, and not an
AddOnly collision. -/
def processedRow (cols : List String) (existing : Roster) (mode : Mode)
    (r : List RawCell) : Bool :=
  !isBlankName (rowName cols r) &&
    !(decide (mode = Mode.add_only) && (dictGet existing (rowName cols r)).isSome)

/-- Rows the `added` counter counts: processed, with a worker name not
present in the consulted existing roster. -/
def addedP (cols : List String) (existing : Roster) (mode : Mode) (r : List RawCell) : Bool :=
  processedRow cols existing mode r && !(dictGet existing (rowName cols r)).isSome

/-- Rows the `updated` counter counts: processed, with a worker name already
present in the consulted existing roster. -/
def updatedP (cols : List String) (existing : Roster) (mode : Mode) (r : List RawCell) : Bool :=
  processedRow cols existing mode r && (dictGet existing (rowName cols r)).isSome

/-- Rows the `skipped` counter counts: non-blank name colliding with the
existing roster under AddOnly. -/
def skippedP (cols : List String) (existing : Roster) (mode : Mode) (r : List RawCell) : Bool :=
  !isBlankName (rowName cols r) &&
    (decide (mode = Mode.add_only) && (dictGet existing (rowName cols r)).isSome)

/-- Total decode-error count over the processed rows of a table. -/
def errTotal (skills mods cols : List String) (existing : Roster) (mode : Mode)
    (rows : List (List RawCell)) : Nat :=
  ((rows.filter (processedRow cols existing mode)).map
    fun r => (buildRecord skills mods cols r).2).sum

/-- Hierarchical-shape detection for one record (lines 133, 337): true iff
the record is non-empty and the first value encountered when iterating its
entries is itself a mapping. -/
def rowIsHier : JRec → Bool
  | [] => false
  | (_, JVal.obj _) :: _ => true
  | (_, JVal.num _) :: _ => false

/-- Capability value the export reads for one `(mod, skill)` pair
(lines 132-146).  Hierarchical path: `worker_data.get(mod, {}).get(skill, 0)`;
flat path: `worker_data.get(col_name, 0)`.  A mapping found where a
capability value is expected cannot arise in a shape-uniform record (the
source would fault there); the embedding returns the default 0 on those
unreachable branches. -/
def exportCellVal (wd : JRec) (mod skill : String) : Int :=
  if rowIsHier wd then
    match dictGet wd mod with
    | some (JVal.obj m) =>
      match dictGet m skill with
      | some (JVal.num n) => n
      | _ => 0
    | _ => 0
  else
    match dictGet wd (skill ++ "_" ++ mod) with
    | some (JVal.num n) => n
    | _ => 0

/-- The export's header row (lines 121-125): `Worker` first, then the column
vocabulary, built by appending inside the two nested loops. -/
def export_columns (skills mods : List String) : List String :=
  mods.foldl (fun acc mod =>
    skills.foldl (fun a2 skill => a2 ++ [skill ++ "_" ++ mod]) acc) ["Worker"]

/-- One export row as the source builds it (lines 130-146): a dictionary
seeded with the `Worker` cell, then one assignment per `(mod, skill)` pair in
loop order. -/
def export_rowDict (skills mods : List String) (name : String) (wd : JRec) :
    List (String × String) :=
  mods.foldl (fun acc mod =>
    skills.foldl (fun a2 skill =>
      dictSet a2 (skill ++ "_" ++ mod) (format_value (exportCellVal wd mod skill))) acc)
    [("Worker", name)]

/-- Embeds `export_to_csv` (lines 112-161) up to file output: an empty store
is a hard error (lines 117-119); otherwise one line per worker in store
order, each line materialized from the row dictionary in header-column order
(`pd.DataFrame(rows, columns=columns)`).  A header column missing from a row
dictionary would render as an empty cell; with this row builder every header
column is always present. -/
def export_to_csv (skills mods : List String) (roster : Roster) :
    Option (List String × List (List String)) :=
  if roster.isEmpty then none
  else
    some (export_columns skills mods,
      roster.map fun p =>
        (export_columns skills mods).map fun c =>
          (dictGet (export_rowDict skills mods p.1 p.2) c).getD "")

/-- Cells of one export row in column order, written directly from the
per-pair lookups (the claim-side description of one row's payload). -/
def colCells (skills : List String) (wd : JRec) : List String → List String
  | [] => []
  | mod :: ms =>
    (skills.map fun skill => format_value (exportCellVal wd mod skill)) ++ colCells skills wd ms

/-- Decode failures the validator records for one expected-and-present
column (lines 291-297): for each row whose cell fails to decode, the triple
of the rendered `Worker` cell, the column name, and the offending raw cell
(the source renders the triple into the line `worker.col: 'val'`). -/
def rowErrsIn (cols : List String) (rows : List (List RawCell)) (col : String) :
    List (String × String × RawCell) :=
  rows.filterMap fun r =>
    match parse_value (cellAt cols r col) with
    | .ok _ => none
    | .error _ => some (pyStr (cellAt cols r "Worker"), col, cellAt cols r col)

/-- Concatenated decode failures over a list of columns. -/
def colErrs (cols : List String) (rows : List (List RawCell)) :
    List String → List (String × String × RawCell)
  | [] => []
  | c :: cs => rowErrsIn cols rows c ++ colErrs cols rows cs

/-- Columns the validator value-checks (lines 272-291): the expected
vocabulary deduplicated (the source intersects Python sets), restricted to
columns present in the file and distinct from `Worker`. -/
def checkedCols (skills mods : List String) (t : Table) : List String :=
  ((colKeys skills mods).dedup).filter fun c => c != "Worker" && t.cols.contains c

/-- All decode failures the validator records for one table. -/
def validationErrors (skills mods : List String) (t : Table) :
    List (String × String × RawCell) :=
  colErrs t.cols t.rows (checkedCols skills mods t)

/-- Embeds `validate_csv` (lines 242-308) after the file has been read:
fails when the `Worker` column is absent (lines 267-269), otherwise passes
iff no cell of an expected-and-present column fails to decode (lines
289-308).  Missing and extra columns only print warnings (lines 284-287). -/
def validate_csv (skills mods : List String) (t : Table) : Bool :=
  if "Worker" ∈ t.cols then (validationErrors skills mods t).isEmpty else false

/-- Shape test: a record value that is a capability number. -/
def JVal.isNumB : JVal → Bool
  | .num _ => true
  | .obj _ => false

/-- Shape test: every value of a one-level object is a capability number. -/
def objAllNum : List (String × JVal) → Bool
  | [] => true
  | (_, v) :: t => v.isNumB && objAllNum t

/-- Shape test: uniformly hierarchical record (every value is a mapping of
capability numbers). -/
def hierAll : JRec → Bool
  | [] => true
  | (_, JVal.obj m) :: t => objAllNum m && hierAll t
  | (_, JVal.num _) :: _ => false

/-- Shape-uniform record: entirely hierarchical or entirely flat.  Both
legacy on-disk shapes satisfy this; mixed records would fault in the source
export. -/
def recWFb (wd : JRec) : Bool := hierAll wd || objAllNum wd

/-- Shape shared by both levels of the record-building loops: repeatedly
assign `key x ↦ val x` into a dictionary while adding `cost x` to a
counter. -/
def dfStep {α : Type} (key : String → String) (val : String → α) (cost : String → Nat)
    (acc : List (String × α) × Nat) (x : String) : List (String × α) × Nat :=
  (dictSet acc.1 (key x) (val x), acc.2 + cost x)


example : parse_value (.str "w") = .ok 2 := by rfl
example : parse_value (.str "  W  ") = .ok 2 := by rfl
example : parse_value (.str "-1") = .ok (-1) := by rfl
example : parse_value (.str "maybe") = .error (.str "maybe") := by rfl
example : parse_value (.num (⟨3, 2, by decide, by decide⟩ : Rat)) = .ok 1 := by rfl
example : parse_value (.num (⟨-5, 2, by decide, by decide⟩ : Rat)) = .error (.num (⟨-5, 2, by decide, by decide⟩ : Rat)) := by rfl
example : ((⟨3, 2, by decide, by decide⟩ : Rat)) = (3 : Rat) / 2 := by norm_num [Rat.mk_eq_divInt, Rat.divInt_eq_div]
example : format_value 2 = "w" := by rfl
example : format_value (-1) = "-1" := by rfl
example : pyStrip "  a b " = "a b" := by rfl

example :
    import_from_csv ["Notfall"] ["ct"] [] Mode.replace
      ⟨["Worker", "Notfall_ct"], [[.str "B", .str "w"]]⟩ =
    some ([("B", [("ct", JVal.obj [("Notfall", JVal.num 2)])])], ⟨1, 0, 0, 0⟩) := by rfl

example :
    import_from_csv ["Notfall"] ["ct"] [("A", [("ct", JVal.obj [("Notfall", JVal.num 1)])])]
      Mode.add_only ⟨["Worker", "Notfall_ct"], [[.str "A", .str "w"], [.str " ", .str "1"]]⟩ =
    some ([("A", [("ct", JVal.obj [("Notfall", JVal.num 1)])])], ⟨0, 0, 1, 0⟩) := by rfl

example :
    export_to_csv ["Notfall"] ["ct"] [("A", [("ct", JVal.obj [("Notfall", JVal.num 1)])])] =
    some (["Worker", "Notfall_ct"], [["A", "1"]]) := by rfl

example :
    export_to_csv ["Notfall"] ["ct"] [("A", [("Notfall_ct", JVal.num 2)])] =
    some (["Worker", "Notfall_ct"], [["A", "w"]]) := by rfl

example :
    validate_csv ["Notfall"] ["ct"] ⟨["Worker", "Notfall_ct"], [[.str "A", .str "maybe"]]⟩ =
    false := by rfl

example :
    validationErrors ["Notfall"] ["ct"] ⟨["Worker", "Notfall_ct"], [[.str "A", .str "maybe"]]⟩ =
    [("A", "Notfall_ct", .str "maybe")] := by rfl

example :
    validate_csv ["Notfall"] ["ct"] ⟨["Worker", "Extra"], [[.str "A", .str "zz"]]⟩ =
    true := by rfl

/-- Python-dict lookup after assignment: the assigned key reads back the new
value, every other key is untouched. -/
theorem dictGet_dictSet {α : Type} (d : List (String × α)) (k w : String) (v : α) :
    dictGet (dictSet d k v) w = if k = w then some v else dictGet d w := by
  induction d with
  | nil => simp [dictSet, dictGet]
  | cons p t ih =>
    obtain ⟨k', v'⟩ := p
    by_cases h : k' = k
    · subst h
      by_cases hw : k' = w <;> simp [dictSet, dictGet, hw]
    · by_cases hw : k' = w
      · subst hw
        have : ¬ k = k' := fun he => h he.symm
        simp [dictSet, dictGet, h, this]
      · simp [dictSet, dictGet, h, hw, ih]

/-- Assignment extends the key sequence only when the key is new. -/
theorem dictSet_keys {α : Type} (d : List (String × α)) (k : String) (v : α) :
    (dictSet d k v).map Prod.fst =
      if k ∈ d.map Prod.fst then d.map Prod.fst else d.map Prod.fst ++ [k] := by
  induction d with
  | nil => simp [dictSet]
  | cons p t ih =>
    obtain ⟨k', v'⟩ := p
    by_cases h : k' = k
    · subst h; simp [dictSet]
    · have : ¬ k = k' := fun he => h he.symm
      by_cases hm : k ∈ t.map Prod.fst <;> simp [dictSet, h, this, hm, ih]

/-- Assignment preserves key uniqueness. -/
theorem dictSet_nodupKeys {α : Type} (d : List (String × α)) (k : String) (v : α)
    (h : (d.map Prod.fst).Nodup) : ((dictSet d k v).map Prod.fst).Nodup := by
  rw [dictSet_keys]
  by_cases hm : k ∈ d.map Prod.fst
  · simpa [hm] using h
  · simp only [hm, if_false]
    exact List.Nodup.append h (List.nodup_singleton k) (by simpa using hm)

/-- The record-building loops never touch keys outside their key range. -/
theorem dfFold_get_absent {α : Type} (key : String → String) (val : String → α)
    (cost : String → Nat) (xs : List String) (start : List (String × α) × Nat) (w : String)
    (hw : ∀ x ∈ xs, key x ≠ w) :
    dictGet (xs.foldl (dfStep key val cost) start).1 w = dictGet start.1 w := by
  induction xs generalizing start with
  | nil => rfl
  | cons a l ih =>
    simp only [List.foldl_cons]
    rw [ih _ fun x hx => hw x (List.mem_cons_of_mem a hx)]
    show dictGet (dictSet start.1 (key a) (val a)) w = dictGet start.1 w
    rw [dictGet_dictSet]
    simp [hw a (List.mem_cons_self a l)]

/-- With an injective key function, the record-building loops read back the
value computed for each visited element. -/
theorem dfFold_get_mem {α : Type} (key : String → String) (val : String → α)
    (cost : String → Nat) (xs : List String) (start : List (String × α) × Nat) (x : String)
    (hx : x ∈ xs) (hinj : ∀ y ∈ xs, key y = key x → y = x) :
    dictGet (xs.foldl (dfStep key val cost) start).1 (key x) = some (val x) := by
  induction xs generalizing start with
  | nil => cases hx
  | cons a l ih =>
    simp only [List.foldl_cons]
    by_cases hmem : x ∈ l
    · exact ih _ hmem (fun y hy => hinj y (List.mem_cons_of_mem a hy))
    · have hax : a = x := by
        rcases List.mem_cons.mp hx with h | h
        · exact h.symm
        · exact absurd h hmem
      subst hax
      rw [dfFold_get_absent key val cost l _ (key a) ?absent]
      · show dictGet (dictSet start.1 (key a) (val a)) (key a) = some (val a)
        rw [dictGet_dictSet]
        simp
      · intro y hy hk
        have hya := hinj y (List.mem_cons_of_mem a hy) hk
        subst hya
        exact absurd hy hmem

/-- Cost accounting of the record-building loops. -/
theorem dfFold_snd {α : Type} (key : String → String) (val : String → α)
    (cost : String → Nat) (xs : List String) (start : List (String × α) × Nat) :
    (xs.foldl (dfStep key val cost) start).2 = start.2 + (xs.map cost).sum := by
  induction xs generalizing start with
  | nil => simp
  | cons a l ih =>
    simp only [List.foldl_cons, List.map_cons, List.sum_cons]
    rw [ih]
    show start.2 + cost a + (l.map cost).sum = _
    omega

/-- Key presence after a record-building loop. -/
theorem dfFold_get_isSome {α : Type} (key : String → String) (val : String → α)
    (cost : String → Nat) (xs : List String) (start : List (String × α) × Nat) (w : String) :
    (dictGet (xs.foldl (dfStep key val cost) start).1 w).isSome =
      ((dictGet start.1 w).isSome || xs.any fun x => key x == w) := by
  induction xs generalizing start with
  | nil => simp
  | cons a l ih =>
    simp only [List.foldl_cons, List.any_cons]
    rw [ih]
    have hstep : (dictGet (dfStep key val cost start a).1 w).isSome =
        ((dictGet start.1 w).isSome || (key a == w)) := by
      show (dictGet (dictSet start.1 (key a) (val a)) w).isSome = _
      rw [dictGet_dictSet]
      by_cases h : key a = w <;> simp [h]
    rw [hstep]
    cases hkw : (key a == w) <;> cases hs : (dictGet start.1 w).isSome <;> simp

/-- Key uniqueness after a record-building loop. -/
theorem dfFold_nodupKeys {α : Type} (key : String → String) (val : String → α)
    (cost : String → Nat) (xs : List String) (start : List (String × α) × Nat)
    (h : (start.1.map Prod.fst).Nodup) :
    ((xs.foldl (dfStep key val cost) start).1.map Prod.fst).Nodup := by
  induction xs generalizing start with
  | nil => exact h
  | cons a l ih =>
    simp only [List.foldl_cons]
    exact ih _ (dictSet_nodupKeys _ _ _ h)

/-- String append is cancellable on the right (used for column-key
injectivity). -/
theorem string_append_cancel_right (a b c : String) (h : a ++ c = b ++ c) : a = b := by
  obtain ⟨la⟩ := a
  obtain ⟨lb⟩ := b
  obtain ⟨lc⟩ := c
  have hd : la ++ lc = lb ++ lc := congrArg String.data h
  exact congrArg String.mk (List.append_cancel_right hd)


/-- The inner record-build loop is an instance of the generic dictionary
fold: the dictionary key is the skill name itself, the stored value and the
error cost both come from the cell of column `skill ++ "_" ++ mod`. -/
theorem bmStep_eq (cols : List String) (r : List RawCell) (mod : String) :
    bmStep cols r mod =
      dfStep (fun s => s)
        (fun s => JVal.num (buildCell cols r (s ++ "_" ++ mod)).1)
        (fun s => (buildCell cols r (s ++ "_" ++ mod)).2) := rfl

/-- The outer record-build loop is an instance of the generic dictionary
fold: the key is the modality name, the value its freshly built skill
dictionary. -/
theorem brStep_eq (skills cols : List String) (r : List RawCell) :
    brStep skills cols r =
      dfStep (fun m => m)
        (fun m => JVal.obj (buildModRow skills cols r m).1)
        (fun m => (buildModRow skills cols r m).2) := rfl

/-- Each configured skill reads back its decoded (or recovered) cell from the
modality dictionary built for one row. -/
theorem buildModRow_get (skills cols : List String) (r : List RawCell) (mod skill : String)
    (hs : skill ∈ skills) :
    dictGet (buildModRow skills cols r mod).1 skill =
      some (JVal.num (buildCell cols r (skill ++ "_" ++ mod)).1) := by
  unfold buildModRow
  rw [bmStep_eq]
  exact dfFold_get_mem (fun s => s) _ _ skills ([], 0) skill hs (fun y _ h => h)

/-- Skill keys present in a built modality dictionary are exactly the
configured skills. -/
theorem buildModRow_get_isSome (skills cols : List String) (r : List RawCell) (mod w : String) :
    (dictGet (buildModRow skills cols r mod).1 w).isSome = skills.any fun s => s == w := by
  unfold buildModRow
  rw [bmStep_eq, dfFold_get_isSome]
  simp [dictGet]

/-- Error count of one built modality dictionary. -/
theorem buildModRow_snd (skills cols : List String) (r : List RawCell) (mod : String) :
    (buildModRow skills cols r mod).2 =
      (skills.map fun s => (buildCell cols r (s ++ "_" ++ mod)).2).sum := by
  unfold buildModRow
  rw [bmStep_eq, dfFold_snd]
  simp

/-- Key uniqueness of a built modality dictionary. -/
theorem buildModRow_nodupKeys (skills cols : List String) (r : List RawCell) (mod : String) :
    ((buildModRow skills cols r mod).1.map Prod.fst).Nodup := by
  unfold buildModRow
  rw [bmStep_eq]
  exact dfFold_nodupKeys _ _ _ skills ([], 0) (by simp)

/-- Each configured modality reads back its built skill dictionary from the
record built for one row. -/
theorem buildRecord_get (skills mods cols : List String) (r : List RawCell) (mod : String)
    (hm : mod ∈ mods) :
    dictGet (buildRecord skills mods cols r).1 mod =
      some (JVal.obj (buildModRow skills cols r mod).1) := by
  unfold buildRecord
  rw [brStep_eq]
  exact dfFold_get_mem (fun m => m) _ _ mods ([], 0) mod hm (fun y _ h => h)

/-- Modality keys present in a built record are exactly the configured
modalities. -/
theorem buildRecord_get_isSome (skills mods cols : List String) (r : List RawCell) (w : String) :
    (dictGet (buildRecord skills mods cols r).1 w).isSome = mods.any fun m => m == w := by
  unfold buildRecord
  rw [brStep_eq, dfFold_get_isSome]
  simp [dictGet]

/-- Error count of the record built for one row: one per modality
dictionary. -/
theorem buildRecord_snd (skills mods cols : List String) (r : List RawCell) :
    (buildRecord skills mods cols r).2 =
      (mods.map fun m => (buildModRow skills cols r m).2).sum := by
  unfold buildRecord
  rw [brStep_eq, dfFold_snd]
  simp

/-- Key uniqueness of a built record. -/
theorem buildRecord_nodupKeys (skills mods cols : List String) (r : List RawCell) :
    ((buildRecord skills mods cols r).1.map Prod.fst).Nodup := by
  unfold buildRecord
  rw [brStep_eq]
  exact dfFold_nodupKeys _ _ _ mods ([], 0) (by simp)

/-- Error contribution of one cell, as an indicator. -/
theorem buildCell_snd (cols : List String) (r : List RawCell) (col : String) :
    (buildCell cols r col).2 =
      if decide (col ∈ cols) && !isOkB (parse_value (cellAt cols r col)) then 1 else 0 := by
  unfold buildCell
  by_cases h : col ∈ cols
  · cases hp : parse_value (cellAt cols r col) <;> simp [h, hp, isOkB]
  · simp [h]

/-- Error indicators of one modality's cells sum to a count over its column
keys. -/
theorem sum_buildCell_countP (cols : List String) (r : List RawCell) (m : String)
    (skills : List String) :
    (List.map (fun s => (buildCell cols r (s ++ "_" ++ m)).2) skills).sum =
      List.countP (fun c => decide (c ∈ cols) && !isOkB (parse_value (cellAt cols r c)))
        (skills.map fun skill => skill ++ "_" ++ m) := by
  induction skills with
  | nil => rfl
  | cons s l ih =>
    simp only [List.map_cons, List.sum_cons, List.countP_cons, ih]
    rw [buildCell_snd]
    by_cases hc : (decide (s ++ "_" ++ m ∈ cols) &&
        !isOkB (parse_value (cellAt cols r (s ++ "_" ++ m)))) = true
    · simp [hc]
      omega
    · simp [hc]

/-- Error count of the record built for one row, as a count over the column
vocabulary: one error per expected column that is present in the table and
whose cell fails to decode. -/
theorem buildRecord_errs (skills mods cols : List String) (r : List RawCell) :
    (buildRecord skills mods cols r).2 =
      (colKeys skills mods).countP
        (fun c => decide (c ∈ cols) && !isOkB (parse_value (cellAt cols r c))) := by
  rw [buildRecord_snd]
  induction mods with
  | nil => rfl
  | cons m ms ih =>
    simp only [List.map_cons, List.sum_cons, colKeys, List.countP_append]
    rw [ih, buildModRow_snd, sum_buildCell_countP]

/-- Helper: when a row is neither blank-named nor an AddOnly collision, the
AddOnly-collision test is false as a boolean. -/
theorem skipCond_false (cols : List String) (existing : Roster) (mode : Mode)
    (r : List RawCell)
    (hsk : ¬(mode = Mode.add_only ∧ (dictGet existing (rowName cols r)).isSome = true)) :
    (decide (mode = Mode.add_only) && (dictGet existing (rowName cols r)).isSome) = false := by
  by_cases hA : mode = Mode.add_only
  · cases h : (dictGet existing (rowName cols r)).isSome
    · simp [h]
    · exact absurd ⟨hA, h⟩ hsk
  · simp [hA]

/-- Roster effect of one import row iteration: processed rows assign their
freshly built record under their name, all other rows leave the roster
untouched. -/
theorem importStep_roster (skills mods cols : List String) (existing : Roster) (mode : Mode)
    (acc : Roster × Stats) (r : List RawCell) :
    (importStep skills mods cols existing mode acc r).1 =
      if processedRow cols existing mode r then
        dictSet acc.1 (rowName cols r) (buildRecord skills mods cols r).1
      else acc.1 := by
  unfold importStep
  by_cases hb : isBlankName (rowName cols r) = true
  · simp [hb, processedRow]
  · have hb' : isBlankName (rowName cols r) = false := by simp [hb]
    by_cases hsk : mode = Mode.add_only ∧ (dictGet existing (rowName cols r)).isSome = true
    · simp [hb', processedRow, hsk.1, hsk.2]
    · have hf := skipCond_false cols existing mode r hsk
      simp only [hb', Bool.false_eq_true, if_false, hsk, if_false, processedRow, hf,
        Bool.not_false, Bool.and_true, Bool.not_true, if_true]
      split <;> rfl

/-- Counter effect of one import row iteration. -/
theorem importStep_stats (skills mods cols : List String) (existing : Roster) (mode : Mode)
    (acc : Roster × Stats) (r : List RawCell) :
    (importStep skills mods cols existing mode acc r).2 =
      ⟨acc.2.added + (if addedP cols existing mode r then 1 else 0),
       acc.2.updated + (if updatedP cols existing mode r then 1 else 0),
       acc.2.skipped + (if skippedP cols existing mode r then 1 else 0),
       acc.2.errors +
         (if processedRow cols existing mode r then (buildRecord skills mods cols r).2 else 0)⟩ := by
  unfold importStep
  by_cases hb : isBlankName (rowName cols r) = true
  · simp [hb, processedRow, addedP, updatedP, skippedP]
  · have hb' : isBlankName (rowName cols r) = false := by simp [hb]
    by_cases hsk : mode = Mode.add_only ∧ (dictGet existing (rowName cols r)).isSome = true
    · simp [hb', processedRow, addedP, updatedP, skippedP, hsk.1, hsk.2]
    · have hf := skipCond_false cols existing mode r hsk
      have hpr : processedRow cols existing mode r = true := by
        simp [processedRow, hb', hf]
      cases hup : (dictGet existing (rowName cols r)).isSome
      · simp [hb', hsk, hpr, addedP, updatedP, skippedP, hup, hf]
      · have hA : ¬ mode = Mode.add_only := fun h => hsk ⟨h, hup⟩
        simp [hb', hsk, hpr, addedP, updatedP, skippedP, hup, hf, hA]

/-- A worker name no processed row carries is untouched by the whole import
row loop. -/
theorem importLoop_get_absent (skills mods cols : List String) (existing : Roster)
    (mode : Mode) (rows : List (List RawCell)) (acc : Roster × Stats) (w : String)
    (hw : ∀ r ∈ rows, processedRow cols existing mode r = true → rowName cols r ≠ w) :
    dictGet (rows.foldl (importStep skills mods cols existing mode) acc).1 w =
      dictGet acc.1 w := by
  induction rows generalizing acc with
  | nil => rfl
  | cons r rs ih =>
    simp only [List.foldl_cons]
    rw [ih _ fun x hx => hw x (List.mem_cons_of_mem r hx)]
    rw [importStep_roster]
    by_cases hp : processedRow cols existing mode r = true
    · rw [if_pos hp, dictGet_dictSet, if_neg (hw r (List.mem_cons_self r rs) hp)]
    · rw [if_neg hp]

/-- A worker name is present after the import row loop iff it was present
before or some processed row carries it. -/
theorem importLoop_get_isSome (skills mods cols : List String) (existing : Roster)
    (mode : Mode) (rows : List (List RawCell)) (acc : Roster × Stats) (w : String) :
    (dictGet (rows.foldl (importStep skills mods cols existing mode) acc).1 w).isSome =
      ((dictGet acc.1 w).isSome ||
        rows.any fun r => processedRow cols existing mode r && (rowName cols r == w)) := by
  induction rows generalizing acc with
  | nil => simp
  | cons r rs ih =>
    simp only [List.foldl_cons, List.any_cons]
    rw [ih]
    have hstep : (dictGet (importStep skills mods cols existing mode acc r).1 w).isSome =
        ((dictGet acc.1 w).isSome ||
          (processedRow cols existing mode r && (rowName cols r == w))) := by
      rw [importStep_roster]
      by_cases hp : processedRow cols existing mode r = true
      · rw [if_pos hp, dictGet_dictSet]
        by_cases hn : rowName cols r = w
        · simp [hn, hp]
        · simp [hn, hp]
      · have hp' : processedRow cols existing mode r = false := by
          cases h : processedRow cols existing mode r
          · rfl
          · exact absurd h hp
        rw [if_neg hp]
        simp [hp']
    rw [hstep]
    cases (dictGet acc.1 w).isSome <;>
      cases (processedRow cols existing mode r && (rowName cols r == w)) <;> simp

/-- A worker name carried by some processed row reads back, after the import
row loop, the record freshly built from one of the table's processed rows
bearing that name. -/
theorem importLoop_get_processed (skills mods cols : List String) (existing : Roster)
    (mode : Mode) (rows : List (List RawCell)) (acc : Roster × Stats) (w : String)
    (hw : ∃ r ∈ rows, processedRow cols existing mode r = true ∧ rowName cols r = w) :
    ∃ r ∈ rows, processedRow cols existing mode r = true ∧ rowName cols r = w ∧
      dictGet (rows.foldl (importStep skills mods cols existing mode) acc).1 w =
        some (buildRecord skills mods cols r).1 := by
  induction rows generalizing acc with
  | nil => simp at hw
  | cons r rs ih =>
    simp only [List.foldl_cons]
    by_cases hrs : ∃ r' ∈ rs, processedRow cols existing mode r' = true ∧ rowName cols r' = w
    · obtain ⟨r', h1, h2, h3, h4⟩ := ih (importStep skills mods cols existing mode acc r) hrs
      exact ⟨r', List.mem_cons_of_mem r h1, h2, h3, h4⟩
    · obtain ⟨r0, hm0, hp0, hn0⟩ := hw
      have hr0 : r0 = r := by
        rcases List.mem_cons.mp hm0 with h | h
        · exact h
        · exact absurd ⟨r0, h, hp0, hn0⟩ hrs
      subst hr0
      refine ⟨r0, List.mem_cons_self r0 rs, hp0, hn0, ?_⟩
      rw [importLoop_get_absent skills mods cols existing mode rs _ w ?absent]
      · rw [importStep_roster, if_pos hp0, dictGet_dictSet, if_pos hn0]
      · intro r' h' hp' hn'
        exact hrs ⟨r', h', hp', hn'⟩

/-- When every row is blank-named or an AddOnly collision, the import row
loop leaves the roster exactly as it started. -/
theorem importLoop_roster_allSkipped (skills mods cols : List String) (existing : Roster)
    (mode : Mode) (rows : List (List RawCell)) (acc : Roster × Stats)
    (h : ∀ r ∈ rows, processedRow cols existing mode r = false) :
    (rows.foldl (importStep skills mods cols existing mode) acc).1 = acc.1 := by
  induction rows generalizing acc with
  | nil => rfl
  | cons r rs ih =>
    simp only [List.foldl_cons]
    rw [ih _ fun x hx => h x (List.mem_cons_of_mem r hx)]
    rw [importStep_roster]
    simp [h r (List.mem_cons_self r rs)]

/-- Unfolding of the processed-row error total over a row cons. -/
theorem errTotal_cons (skills mods cols : List String) (existing : Roster) (mode : Mode)
    (r : List RawCell) (rs : List (List RawCell)) :
    errTotal skills mods cols existing mode (r :: rs) =
      (if processedRow cols existing mode r then (buildRecord skills mods cols r).2 else 0) +
        errTotal skills mods cols existing mode rs := by
  unfold errTotal
  rw [List.filter_cons]
  by_cases hp : processedRow cols existing mode r = true
  · simp [hp]
  · simp [hp]

/-- Counter totals of the whole import row loop. -/
theorem importLoop_stats (skills mods cols : List String) (existing : Roster) (mode : Mode)
    (rows : List (List RawCell)) (acc : Roster × Stats) :
    (rows.foldl (importStep skills mods cols existing mode) acc).2 =
      ⟨acc.2.added + rows.countP (addedP cols existing mode),
       acc.2.updated + rows.countP (updatedP cols existing mode),
       acc.2.skipped + rows.countP (skippedP cols existing mode),
       acc.2.errors + errTotal skills mods cols existing mode rows⟩ := by
  induction rows generalizing acc with
  | nil =>
    simp [errTotal]
  | cons r rs ih =>
    simp only [List.foldl_cons]
    rw [ih, importStep_stats]
    simp only [List.countP_cons, errTotal_cons, Stats.mk.injEq]
    refine ⟨by omega, by omega, by omega, by omega⟩

/-- Column-key equality determines the skill once the modality suffix is
fixed. -/
theorem colKey_inj_left (a b suffix : String) (h : a ++ "_" ++ suffix = b ++ "_" ++ suffix) :
    a = b :=
  string_append_cancel_right a b "_"
    (string_append_cancel_right (a ++ "_") (b ++ "_") suffix h)

/-- Membership in the column vocabulary. -/
theorem mem_colKeys (skills mods : List String) (c : String) :
    c ∈ colKeys skills mods ↔ ∃ m ∈ mods, ∃ s ∈ skills, c = s ++ "_" ++ m := by
  induction mods with
  | nil => simp [colKeys]
  | cons m ms ih =>
    simp only [colKeys, List.mem_append, List.mem_map, ih, List.mem_cons]
    constructor
    · rintro (⟨s, hs, rfl⟩ | ⟨m', hm', s, hs, rfl⟩)
      · exact ⟨m, Or.inl rfl, s, hs, rfl⟩
      · exact ⟨m', Or.inr hm', s, hs, rfl⟩
    · rintro ⟨m', hm' | hm', s, hs, rfl⟩
      · exact Or.inl ⟨s, hs, by rw [hm']⟩
      · exact Or.inr ⟨m', hm', s, hs, rfl⟩

/-- The inner append loop of the export header build appends the skill block
of one modality. -/
theorem export_columns_inner (skills : List String) (mod : String) (init : List String) :
    skills.foldl (fun a2 skill => a2 ++ [skill ++ "_" ++ mod]) init =
      init ++ skills.map (fun skill => skill ++ "_" ++ mod) := by
  induction skills generalizing init with
  | nil => simp
  | cons s l ih =>
    simp only [List.foldl_cons, List.map_cons]
    rw [ih]
    simp

/-- The export header is `Worker` followed by the column vocabulary in
modality-major order. -/
theorem export_columns_eq (skills mods : List String) :
    export_columns skills mods = "Worker" :: colKeys skills mods := by
  unfold export_columns
  suffices h : ∀ init : List String,
      mods.foldl (fun acc mod =>
        skills.foldl (fun a2 skill => a2 ++ [skill ++ "_" ++ mod]) acc) init =
        init ++ colKeys skills mods by
    simpa using h ["Worker"]
  induction mods with
  | nil => intro init; simp [colKeys]
  | cons m ms ih =>
    intro init
    simp only [List.foldl_cons, colKeys]
    rw [export_columns_inner, ih]
    simp

/-- The inner export row loop never writes keys outside its modality
block. -/
theorem exportRow_inner_absent (wd : JRec) (mod : String) (skills : List String)
    (d : List (String × String)) (w : String) (hw : ∀ s ∈ skills, s ++ "_" ++ mod ≠ w) :
    dictGet (skills.foldl (fun a2 skill =>
      dictSet a2 (skill ++ "_" ++ mod) (format_value (exportCellVal wd mod skill))) d) w =
      dictGet d w := by
  induction skills generalizing d with
  | nil => rfl
  | cons s l ih =>
    simp only [List.foldl_cons]
    rw [ih _ fun s' hs' => hw s' (List.mem_cons_of_mem s hs')]
    rw [dictGet_dictSet, if_neg (hw s (List.mem_cons_self s l))]

/-- The inner export row loop records each skill's encoded cell under its
column key. -/
theorem exportRow_inner_mem (wd : JRec) (mod : String) (skills : List String)
    (d : List (String × String)) (skill : String) (hs : skill ∈ skills) :
    dictGet (skills.foldl (fun a2 sk =>
      dictSet a2 (sk ++ "_" ++ mod) (format_value (exportCellVal wd mod sk))) d)
      (skill ++ "_" ++ mod) = some (format_value (exportCellVal wd mod skill)) := by
  induction skills generalizing d with
  | nil => cases hs
  | cons s l ih =>
    simp only [List.foldl_cons]
    by_cases hmem : skill ∈ l
    · exact ih _ hmem
    · have hss : s = skill := ((List.mem_cons.mp hs).resolve_right hmem).symm
      subst hss
      rw [exportRow_inner_absent wd mod l _ _ ?absent]
      · rw [dictGet_dictSet, if_pos rfl]
      · intro s' hs' heq
        exact hmem (colKey_inj_left s' s mod heq ▸ hs')

/-- The outer export row loop never writes keys outside its modality
blocks. -/
theorem exportRow_outer_absent (skills : List String) (wd : JRec) (ms : List String)
    (d : List (String × String)) (w : String)
    (hw : ∀ m ∈ ms, ∀ s ∈ skills, s ++ "_" ++ m ≠ w) :
    dictGet (ms.foldl (fun acc mod => skills.foldl (fun a2 skill =>
      dictSet a2 (skill ++ "_" ++ mod) (format_value (exportCellVal wd mod skill))) acc) d) w =
      dictGet d w := by
  induction ms generalizing d with
  | nil => rfl
  | cons m ms2 ih =>
    simp only [List.foldl_cons]
    rw [ih _ fun m' hm' => hw m' (List.mem_cons_of_mem m hm')]
    exact exportRow_inner_absent wd m skills d w (hw m (List.mem_cons_self m ms2))

/-- Under a duplicate-free column vocabulary, each column key of the export
row dictionary reads back the encoded cell of its `(mod, skill)` pair. -/
theorem export_rowDict_get_col (skills mods : List String) (name : String) (wd : JRec)
    (mod skill : String) (hm : mod ∈ mods) (hs : skill ∈ skills)
    (hnd : (colKeys skills mods).Nodup) :
    dictGet (export_rowDict skills mods name wd) (skill ++ "_" ++ mod) =
      some (format_value (exportCellVal wd mod skill)) := by
  unfold export_rowDict
  suffices h : ∀ d : List (String × String),
      dictGet (mods.foldl (fun acc mod2 => skills.foldl (fun a2 sk =>
        dictSet a2 (sk ++ "_" ++ mod2) (format_value (exportCellVal wd mod2 sk))) acc) d)
        (skill ++ "_" ++ mod) = some (format_value (exportCellVal wd mod skill)) by
    exact h [("Worker", name)]
  induction mods with
  | nil => cases hm
  | cons m ms ih =>
    intro d
    have hnd2 : (colKeys skills ms).Nodup := by
      have := List.nodup_append.mp (by simpa [colKeys] using hnd)
      exact this.2.1
    have hdisj : List.Disjoint (skills.map fun s => s ++ "_" ++ m) (colKeys skills ms) := by
      have := List.nodup_append.mp (by simpa [colKeys] using hnd)
      exact this.2.2
    simp only [List.foldl_cons]
    by_cases hmem : mod ∈ ms
    · exact ih hmem hnd2 _
    · have hmm : m = mod := ((List.mem_cons.mp hm).resolve_right hmem).symm
      subst hmm
      rw [exportRow_outer_absent skills wd ms _ _ ?absent]
      · exact exportRow_inner_mem wd m skills d skill hs
      · intro m' hm' s' hs' heq
        have hkey : skill ++ "_" ++ m ∈ skills.map fun s => s ++ "_" ++ m :=
          List.mem_map.mpr ⟨skill, hs, rfl⟩
        have hkey2 : skill ++ "_" ++ m ∈ colKeys skills ms := by
          rw [← heq]
          exact (mem_colKeys skills ms _).mpr ⟨m', hm', s', hs', rfl⟩
        exact hdisj hkey hkey2

/-- The `Worker` cell of the export row dictionary survives the column
writes whenever no column key is literally `Worker`. -/
theorem export_rowDict_get_worker (skills mods : List String) (name : String) (wd : JRec)
    (hwk : "Worker" ∉ colKeys skills mods) :
    dictGet (export_rowDict skills mods name wd) "Worker" = some name := by
  unfold export_rowDict
  rw [exportRow_outer_absent skills wd mods _ "Worker" ?absent]
  · rfl
  · intro m hm s hs heq
    exact hwk ((mem_colKeys skills mods "Worker").mpr ⟨m, hm, s, hs, heq.symm⟩)

/-- Materializing one export row along the column vocabulary yields the
worker name followed by the per-pair encoded cells, modality-major. -/
theorem export_row_cells_aux (skills mods : List String) (name : String) (wd : JRec)
    (hnd : (colKeys skills mods).Nodup) (ms : List String) (hsub : ∀ m ∈ ms, m ∈ mods) :
    (colKeys skills ms).map
        (fun c => (dictGet (export_rowDict skills mods name wd) c).getD "") =
      colCells skills wd ms := by
  induction ms with
  | nil => rfl
  | cons m ms2 ih =>
    simp only [colKeys, colCells, List.map_append, List.map_map]
    rw [ih fun m' h' => hsub m' (List.mem_cons_of_mem m h')]
    congr 1
    refine List.map_congr_left ?_
    intro s hs
    show (dictGet (export_rowDict skills mods name wd) (s ++ "_" ++ m)).getD "" = _
    rw [export_rowDict_get_col skills mods name wd m s (hsub m (List.mem_cons_self m ms2)) hs hnd]
    rfl

/-- One export row materialized along the full header. -/
theorem export_row_cells (skills mods : List String) (name : String) (wd : JRec)
    (hnd : ("Worker" :: colKeys skills mods).Nodup) :
    (export_columns skills mods).map
        (fun c => (dictGet (export_rowDict skills mods name wd) c).getD "") =
      name :: colCells skills wd mods := by
  obtain ⟨hwk, hnd2⟩ := List.nodup_cons.mp hnd
  rw [export_columns_eq]
  simp only [List.map_cons]
  rw [export_rowDict_get_worker skills mods name wd hwk]
  rw [export_row_cells_aux skills mods name wd hnd2 mods fun m hm => hm]
  rfl

/-- Membership in one column's recorded decode failures. -/
theorem mem_rowErrsIn (cols : List String) (rows : List (List RawCell)) (col : String)
    (w c : String) (v : RawCell) :
    (w, c, v) ∈ rowErrsIn cols rows col ↔
      c = col ∧ ∃ r ∈ rows, cellAt cols r col = v ∧ isOkB (parse_value v) = false ∧
        w = pyStr (cellAt cols r "Worker") := by
  unfold rowErrsIn
  rw [List.mem_filterMap]
  constructor
  · rintro ⟨r, hr, hmatch⟩
    cases hp : parse_value (cellAt cols r col) with
    | ok val =>
      rw [hp] at hmatch
      cases hmatch
    | error e =>
      rw [hp] at hmatch
      have h3 := Option.some.inj hmatch
      simp only [Prod.mk.injEq] at h3
      obtain ⟨hw, hc, hv⟩ := h3
      refine ⟨hc.symm, r, hr, hv, ?_, hw.symm⟩
      rw [← hv, hp]
      rfl
  · rintro ⟨rfl, r, hr, hv, hbad, hw⟩
    refine ⟨r, hr, ?_⟩
    cases hp : parse_value (cellAt cols r c) with
    | ok val =>
      rw [← hv] at hbad
      rw [hp] at hbad
      cases hbad
    | error e =>
      rw [hw, hv]

/-- Membership in the concatenated per-column failure lists. -/
theorem mem_colErrs (cols : List String) (rows : List (List RawCell)) (cs : List String)
    (w c : String) (v : RawCell) :
    (w, c, v) ∈ colErrs cols rows cs ↔
      ∃ col ∈ cs, (w, c, v) ∈ rowErrsIn cols rows col := by
  induction cs with
  | nil => simp [colErrs]
  | cons c0 cs2 ih =>
    simp only [colErrs, List.mem_append, ih, List.mem_cons]
    constructor
    · rintro (h | ⟨col, hcol, h⟩)
      · exact ⟨c0, Or.inl rfl, h⟩
      · exact ⟨col, Or.inr hcol, h⟩
    · rintro ⟨col, hcol | hcol, h⟩
      · exact Or.inl (hcol ▸ h)
      · exact Or.inr ⟨col, hcol, h⟩

/-- Membership in the checked-column list. -/
theorem mem_checkedCols (skills mods : List String) (t : Table) (c : String) :
    c ∈ checkedCols skills mods t ↔
      c ∈ colKeys skills mods ∧ c ≠ "Worker" ∧ c ∈ t.cols := by
  unfold checkedCols
  rw [List.mem_filter, List.mem_dedup]
  constructor
  · rintro ⟨h1, h2⟩
    simp only [Bool.and_eq_true, bne_iff_ne, ne_eq] at h2
    refine ⟨h1, h2.1, ?_⟩
    have := h2.2
    simpa using this
  · rintro ⟨h1, h2, h3⟩
    refine ⟨h1, ?_⟩
    simp only [Bool.and_eq_true, bne_iff_ne, ne_eq]
    exact ⟨h2, by simpa using h3⟩

/-- Characterization of the validator's recorded failures. -/
theorem mem_validationErrors (skills mods : List String) (t : Table) (w c : String)
    (v : RawCell) :
    (w, c, v) ∈ validationErrors skills mods t ↔
      (c ∈ colKeys skills mods ∧ c ≠ "Worker" ∧ c ∈ t.cols ∧
        ∃ r ∈ t.rows, cellAt t.cols r c = v ∧ isOkB (parse_value v) = false ∧
          w = pyStr (cellAt t.cols r "Worker")) := by
  unfold validationErrors
  rw [mem_colErrs]
  constructor
  · rintro ⟨col, hcol, h⟩
    rw [mem_rowErrsIn] at h
    obtain ⟨rfl, hrest⟩ := h
    obtain ⟨h1, h2, h3⟩ := (mem_checkedCols skills mods t c).mp hcol
    exact ⟨h1, h2, h3, hrest⟩
  · rintro ⟨h1, h2, h3, hrest⟩
    refine ⟨c, (mem_checkedCols skills mods t c).mpr ⟨h1, h2, h3⟩, ?_⟩
    rw [mem_rowErrsIn]
    exact ⟨rfl, hrest⟩

/-- The validator records no failure iff every cell of every
expected-and-present column decodes. -/
theorem validationErrors_eq_nil (skills mods : List String) (t : Table) :
    validationErrors skills mods t = [] ↔
      ∀ c ∈ t.cols, c ∈ colKeys skills mods → c ≠ "Worker" →
        ∀ r ∈ t.rows, isOkB (parse_value (cellAt t.cols r c)) = true := by
  rw [List.eq_nil_iff_forall_not_mem]
  constructor
  · intro h c hc hck hcw r hr
    cases hok : isOkB (parse_value (cellAt t.cols r c))
    · exact absurd ((mem_validationErrors skills mods t
        (pyStr (cellAt t.cols r "Worker")) c (cellAt t.cols r c)).mpr
          ⟨hck, hcw, hc, r, hr, rfl, hok, rfl⟩)
        (h _)
    · rfl
  · intro h x hx
    obtain ⟨w, c, v⟩ := x
    rw [mem_validationErrors] at hx
    obtain ⟨h1, h2, h3, r, hr, hv, hbad, hw⟩ := hx
    have := h c h3 h1 h2 r hr
    rw [hv] at this
    rw [this] at hbad
    cases hbad

/-- C2: the Value Codec round-trips: decoding the encoding of each of the
four domain values -1, 0, 1, 2 returns that value, and encoding the decoding
of the literal `w` returns `w`. -/
theorem C2_codec_roundtrip :
    parse_value (.str (format_value (-1))) = .ok (-1) ∧
    parse_value (.str (format_value 0)) = .ok 0 ∧
    parse_value (.str (format_value 1)) = .ok 1 ∧
    parse_value (.str (format_value 2)) = .ok 2 ∧
    parse_value (.str "w") = .ok 2 ∧ format_value 2 = "w" := by
  refine ⟨?_, ?_, ?_, ?_, ?_, ?_⟩ <;> rfl

/-- C3 counterexample: the numeric cell 3/2 (the float `1.5`, which pandas
delivers for the CSV text `1.5` in a numeric column) is equal to none of the
four domain values, yet `parse_value` silently coerces it to `1` (Python's
`int(1.5)`) instead of raising an error as the claim requires. -/
theorem C3_counterexample :
    parse_value (.num (⟨3, 2, by decide, by decide⟩ : Rat)) = .ok 1 ∧
    (⟨3, 2, by decide, by decide⟩ : Rat) ∉ ([1, 0, -1, 2] : List Rat) := by
  refine ⟨by rfl, by decide⟩

/-- Unfolding of the numeric branch of the decoder. -/
theorem parse_value_num (q : Rat) :
    parse_value (.num q) =
      if pytrunc q = 1 ∨ pytrunc q = 0 ∨ pytrunc q = -1 ∨ pytrunc q = 2
      then .ok (pytrunc q) else .error (.num q) := rfl

/-- Unfolding of the string branch of the decoder, with the normalized
string abstracted. -/
theorem parse_value_str_cases (s sv : String) (hsv : pyLower (pyStrip s) = sv) :
    parse_value (.str s) =
      if sv = "" ∨ sv = "nan" ∨ sv = "none" then .ok 0
      else if sv = "w" then .ok 2
      else if sv = "1" then .ok 1
      else if sv = "0" then .ok 0
      else if sv = "-1" then .ok (-1)
      else if sv = "2" then .ok 2
      else .error (.str s) := by
  subst hsv
  rfl

/-- C3 (amended): `parse_value` succeeds exactly on missing cells, numeric
cells whose truncation toward zero lands in the domain (so non-integral
numerics such as 1.5 are coerced to their truncation, not rejected), and
strings whose trimmed lower-casing is blank/null-like or one of
`w`, `1`, `0`, `-1`, `2`; every other input raises an error carrying the
offending raw cell, and no string is ever coerced to a different domain
value. -/
theorem C3_decode_domain (c : RawCell) :
    ((∃ v, parse_value c = .ok v) ↔
      (c = .na ∨
        (∃ q, c = .num q ∧ pytrunc q ∈ ([1, 0, -1, 2] : List Int)) ∨
        (∃ s, c = .str s ∧
          pyLower (pyStrip s) ∈
            (["", "nan", "none", "w", "1", "0", "-1", "2"] : List String)))) ∧
    (∀ e, parse_value c = .error e → e = c) ∧
    (c = .na → parse_value c = .ok 0) ∧
    (∀ q, c = .num q → pytrunc q ∈ ([1, 0, -1, 2] : List Int) →
      parse_value c = .ok (pytrunc q)) ∧
    (∀ s, c = .str s → pyLower (pyStrip s) ∈ (["", "nan", "none"] : List String) →
      parse_value c = .ok 0) ∧
    (∀ s, c = .str s → pyLower (pyStrip s) = "w" → parse_value c = .ok 2) ∧
    (∀ s, c = .str s → pyLower (pyStrip s) = "1" → parse_value c = .ok 1) ∧
    (∀ s, c = .str s → pyLower (pyStrip s) = "0" → parse_value c = .ok 0) ∧
    (∀ s, c = .str s → pyLower (pyStrip s) = "-1" → parse_value c = .ok (-1)) ∧
    (∀ s, c = .str s → pyLower (pyStrip s) = "2" → parse_value c = .ok 2) := by
  refine ⟨?_, ?_, ?_, ?_, ?_, ?_, ?_, ?_, ?_, ?_⟩
  · cases c with
    | na => simp [parse_value]
    | num q =>
      rw [parse_value_num]
      simp only [List.mem_cons, List.not_mem_nil, or_false, RawCell.num.injEq,
        reduceCtorEq, false_and, exists_false, false_or, exists_eq_left', or_false]
      constructor
      · rintro ⟨v, hv⟩
        split_ifs at hv with h1
        exact h1
      · intro h1
        exact ⟨pytrunc q, by rw [if_pos h1]⟩
    | str s =>
      rw [parse_value_str_cases s _ rfl]
      simp only [List.mem_cons, List.not_mem_nil, or_false, RawCell.str.injEq,
        reduceCtorEq, false_and, exists_false, false_or, exists_eq_left', or_false]
      constructor
      · rintro ⟨v, hv⟩
        split_ifs at hv with h1 h2 h3 h4 h5 h6
        · tauto
        · tauto
        · tauto
        · tauto
        · tauto
        · tauto
      · rintro (h | h | h | h | h | h | h | h)
        · exact ⟨0, by rw [h]; try rfl⟩
        · exact ⟨0, by rw [h]; try rfl⟩
        · exact ⟨0, by rw [h]; try rfl⟩
        · exact ⟨2, by rw [h]; try rfl⟩
        · exact ⟨1, by rw [h]; try rfl⟩
        · exact ⟨0, by rw [h]; try rfl⟩
        · exact ⟨-1, by rw [h]; try rfl⟩
        · exact ⟨2, by rw [h]; try rfl⟩
  · intro e he
    cases c with
    | na => cases he
    | num q =>
      rw [parse_value_num] at he
      split_ifs at he
      all_goals cases he
      all_goals rfl
    | str s =>
      rw [parse_value_str_cases s _ rfl] at he
      split_ifs at he
      all_goals cases he
      all_goals rfl
  · rintro rfl
    rfl
  · rintro q rfl hq
    simp only [List.mem_cons, List.not_mem_nil, or_false] at hq
    rw [parse_value_num, if_pos hq]
  · rintro s rfl hs
    simp only [List.mem_cons, List.not_mem_nil, or_false] at hs
    rw [parse_value_str_cases s _ rfl, if_pos hs]
  · rintro s rfl hs
    rw [parse_value_str_cases s _ rfl, hs]
    rfl
  · rintro s rfl hs
    rw [parse_value_str_cases s _ rfl, hs]
    rfl
  · rintro s rfl hs
    rw [parse_value_str_cases s _ rfl, hs]
    rfl
  · rintro s rfl hs
    rw [parse_value_str_cases s _ rfl, hs]
    rfl
  · rintro s rfl hs
    rw [parse_value_str_cases s _ rfl, hs]
    rfl

/-- Witness for the amended C3 statement: the padded upper-case cell
`" W "` normalizes to `w` and decodes to Weighted(2), and the padded digit
cell `" -1 "` decodes to Excluded(-1), its own value. -/
theorem C3_decode_domain_witness :
    parse_value (.str " W ") = .ok 2 ∧ parse_value (.str " -1 ") = .ok (-1) :=
  ⟨(C3_decode_domain (.str " W ")).2.2.2.2.2.1 " W " rfl (by rfl),
   (C3_decode_domain (.str " -1 ")).2.2.2.2.2.2.2.2.1 " -1 " rfl (by rfl)⟩

/-- Extraction of the row-loop form of a successful import. -/
theorem import_from_csv_eq (skills mods : List String) (prior : Roster) (mode : Mode)
    (t : Table) (R : Roster) (stats : Stats)
    (h : import_from_csv skills mods prior mode t = some (R, stats)) :
    (R, stats) =
      t.rows.foldl (importStep skills mods t.cols (existingOf mode prior) mode)
        ((if mode = Mode.replace then [] else existingOf mode prior), ⟨0, 0, 0, 0⟩) := by
  unfold import_from_csv at h
  by_cases hW : "Worker" ∈ t.cols
  · rw [if_pos hW] at h
    exact (Option.some.inj h).symm
  · rw [if_neg hW] at h
    cases h

/-- C1: policy semantics of the final store.  Under Replace the worker set
is exactly the non-blank row names of the table; under every policy a worker
name carried by no processed row keeps its binding from the consulted
roster (so under Merge and AddOnly workers absent from the table
are retained unchanged, and under Replace they are absent, since the
consulted roster is empty); under Merge a worker named by a non-blank row
ends up bound to a record freshly built from one of that worker's table
rows, entirely replacing any prior record. -/
theorem C1_merge_policy (skills mods : List String) (prior : Roster) (mode : Mode)
    (t : Table) (R : Roster) (stats : Stats)
    (h : import_from_csv skills mods prior mode t = some (R, stats)) :
    (mode = Mode.replace →
      ∀ w, (dictGet R w).isSome =
        t.rows.any fun r => !isBlankName (rowName t.cols r) && (rowName t.cols r == w)) ∧
    (∀ w, (∀ r ∈ t.rows, processedRow t.cols (existingOf mode prior) mode r = true →
        rowName t.cols r ≠ w) →
      dictGet R w = dictGet (existingOf mode prior) w) ∧
    (mode = Mode.merge →
      ∀ w, (∃ r ∈ t.rows, isBlankName (rowName t.cols r) = false ∧ rowName t.cols r = w) →
        ∃ r ∈ t.rows, rowName t.cols r = w ∧
          dictGet R w = some (buildRecord skills mods t.cols r).1) := by
  have hR := congrArg Prod.fst (import_from_csv_eq skills mods prior mode t R stats h)
  simp only at hR
  refine ⟨?_, ?_, ?_⟩
  · rintro rfl w
    rw [hR, importLoop_get_isSome]
    have hpred : (fun r => processedRow t.cols (existingOf Mode.replace prior) Mode.replace r &&
        (rowName t.cols r == w)) =
        (fun r => !isBlankName (rowName t.cols r) && (rowName t.cols r == w)) := by
      funext r
      simp [processedRow, existingOf]
    rw [hpred]
    simp [existingOf, dictGet]
  · intro w hw
    rw [hR, importLoop_get_absent skills mods t.cols (existingOf mode prior) mode t.rows _ w hw]
    by_cases hm : mode = Mode.replace <;> simp [hm, existingOf, dictGet]
  · rintro rfl w ⟨r, hr, hnb, hname⟩
    have hproc : processedRow t.cols (existingOf Mode.merge prior) Mode.merge r = true := by
      simp [processedRow, hnb]
    obtain ⟨r', h1, h2, h3, h4⟩ := importLoop_get_processed skills mods t.cols
      (existingOf Mode.merge prior) Mode.merge t.rows
      ((if Mode.merge = Mode.replace then [] else existingOf Mode.merge prior), ⟨0, 0, 0, 0⟩)
      w ⟨r, hr, hproc, hname⟩
    exact ⟨r', h1, h3, by rw [hR]; exact h4⟩

/-- Witness for C1: a Merge import of one row for worker `B` against a store
holding `A` keeps `A`'s binding from the consulted store. -/
theorem C1_merge_policy_witness :
    import_from_csv ["Notfall"] ["ct"] [("A", [("ct", JVal.obj [("Notfall", JVal.num 1)])])]
        Mode.merge ⟨["Worker", "Notfall_ct"], [[.str "B", .str "w"]]⟩ =
      some ([("A", [("ct", JVal.obj [("Notfall", JVal.num 1)])]),
             ("B", [("ct", JVal.obj [("Notfall", JVal.num 2)])])], ⟨1, 0, 0, 0⟩) ∧
    dictGet [("A", [("ct", JVal.obj [("Notfall", JVal.num 1)])]),
             ("B", [("ct", JVal.obj [("Notfall", JVal.num 2)])])] "A" =
      dictGet (existingOf Mode.merge [("A", [("ct", JVal.obj [("Notfall", JVal.num 1)])])]) "A" := by
  refine ⟨by rfl, ?_⟩
  exact (C1_merge_policy ["Notfall"] ["ct"]
    [("A", [("ct", JVal.obj [("Notfall", JVal.num 1)])])] Mode.merge
    ⟨["Worker", "Notfall_ct"], [[.str "B", .str "w"]]⟩
    [("A", [("ct", JVal.obj [("Notfall", JVal.num 1)])]),
     ("B", [("ct", JVal.obj [("Notfall", JVal.num 2)])])] ⟨1, 0, 0, 0⟩ (by rfl)).2.1
    "A" (by decide)

/-- Value of one built cell: recovered decode of a present column, 0 for an
absent column. -/
theorem buildCell_fst (cols : List String) (r : List RawCell) (col : String) :
    (buildCell cols r col).1 =
      if col ∈ cols then okOr0 (parse_value (cellAt cols r col)) else 0 := by
  unfold buildCell okOr0
  by_cases h : col ∈ cols
  · cases hp : parse_value (cellAt cols r col) <;> simp [h, hp]
  · simp [h]

/-- C6: decode failures during import are recovered, never fatal.  For every
processed row and every configured (modality, skill) pair, the built record
holds the decoded value of the cell when its column is present and decodes,
0 when it fails to decode, and 0 when the column is absent; the import's
`errors` counter totals exactly the present-and-failing cells of the
processed rows (one per failing cell, none for absent columns); and the
processed row is still present in the output store. -/
theorem C6_decode_recovery (skills mods : List String) (prior : Roster) (mode : Mode)
    (t : Table) (R : Roster) (stats : Stats) (r : List RawCell) (mod skill : String)
    (h : import_from_csv skills mods prior mode t = some (R, stats))
    (hr : r ∈ t.rows) (hp : processedRow t.cols (existingOf mode prior) mode r = true)
    (hm : mod ∈ mods) (hs : skill ∈ skills) :
    (∃ inner, dictGet (buildRecord skills mods t.cols r).1 mod = some (JVal.obj inner) ∧
      dictGet inner skill = some (JVal.num
        (if (skill ++ "_" ++ mod) ∈ t.cols then
          okOr0 (parse_value (cellAt t.cols r (skill ++ "_" ++ mod))) else 0))) ∧
    (buildRecord skills mods t.cols r).2 =
      (colKeys skills mods).countP
        (fun c => decide (c ∈ t.cols) && !isOkB (parse_value (cellAt t.cols r c))) ∧
    stats.errors = errTotal skills mods t.cols (existingOf mode prior) mode t.rows ∧
    (dictGet R (rowName t.cols r)).isSome = true := by
  have hE := congrArg Prod.snd (import_from_csv_eq skills mods prior mode t R stats h)
  have hR := congrArg Prod.fst (import_from_csv_eq skills mods prior mode t R stats h)
  simp only at hE hR
  refine ⟨?_, buildRecord_errs skills mods t.cols r, ?_, ?_⟩
  · refine ⟨(buildModRow skills t.cols r mod).1,
      buildRecord_get skills mods t.cols r mod hm, ?_⟩
    rw [buildModRow_get skills t.cols r mod skill hs, buildCell_fst]
  · rw [hE, importLoop_stats]
    simp
  · rw [hR, importLoop_get_isSome]
    have : t.rows.any (fun r2 => processedRow t.cols (existingOf mode prior) mode r2 &&
        (rowName t.cols r2 == rowName t.cols r)) = true := by
      rw [List.any_eq_true]
      exact ⟨r, hr, by simp [hp]⟩
    rw [this]
    simp

/-- Witness for C6: importing one row whose cell holds `maybe` yields value
0 for that cell, one counted error, and the row still lands in the store. -/
theorem C6_decode_recovery_witness :
    import_from_csv ["Notfall"] ["ct"] [] Mode.replace
        ⟨["Worker", "Notfall_ct"], [[.str "B", .str "maybe"]]⟩ =
      some ([("B", [("ct", JVal.obj [("Notfall", JVal.num 0)])])], ⟨1, 0, 0, 1⟩) ∧
    (dictGet [("B", [("ct", JVal.obj [("Notfall", JVal.num 0)])])]
      (rowName ["Worker", "Notfall_ct"] [.str "B", .str "maybe"])).isSome = true := by
  refine ⟨by rfl, ?_⟩
  exact (C6_decode_recovery ["Notfall"] ["ct"] [] Mode.replace
    ⟨["Worker", "Notfall_ct"], [[.str "B", .str "maybe"]]⟩
    [("B", [("ct", JVal.obj [("Notfall", JVal.num 0)])])] ⟨1, 0, 0, 1⟩
    [.str "B", .str "maybe"] "ct" "Notfall" (by rfl) (by decide) (by decide)
    (by decide) (by decide)).2.2.2

/-- C7 counterexample: a Merge import whose single row has a blank worker
name ends with `skipped = 0`, while the claim counts that blank-named row in
`skipped` (expecting 1). -/
theorem C7_counterexample :
    import_from_csv ["Notfall"] ["ct"] [] Mode.merge
        ⟨["Worker", "Notfall_ct"], [[.str " ", .str "1"]]⟩ = some ([], ⟨0, 0, 0, 0⟩) ∧
    isBlankName (rowName ["Worker", "Notfall_ct"] [.str " ", .str "1"]) = true ∧
    (⟨["Worker", "Notfall_ct"], [[.str " ", .str "1"]]⟩ : Table).rows.length = 1 := by
  refine ⟨by rfl, by rfl, by rfl⟩

/-- C7 (amended): after every import, `added` counts the processed rows
whose name is absent from the consulted existing roster, `updated` those
whose name is present, and `skipped` counts only the AddOnly collisions —
rows with a blank (empty or null-rendered) worker name are dropped without
touching any counter. -/
theorem C7_counters (skills mods : List String) (prior : Roster) (mode : Mode)
    (t : Table) (R : Roster) (stats : Stats)
    (h : import_from_csv skills mods prior mode t = some (R, stats)) :
    stats.added = t.rows.countP (addedP t.cols (existingOf mode prior) mode) ∧
    stats.updated = t.rows.countP (updatedP t.cols (existingOf mode prior) mode) ∧
    stats.skipped = t.rows.countP (skippedP t.cols (existingOf mode prior) mode) := by
  have hE := congrArg Prod.snd (import_from_csv_eq skills mods prior mode t R stats h)
  simp only at hE
  rw [hE, importLoop_stats]
  simp

/-- Witness for the amended C7: one collision, one fresh worker, one update
candidate, one blank row under AddOnly. -/
theorem C7_counters_witness :
    import_from_csv ["Notfall"] ["ct"] [("A", [("ct", JVal.obj [("Notfall", JVal.num 1)])])]
        Mode.add_only
        ⟨["Worker", "Notfall_ct"], [[.str "A", .str "1"], [.str "C", .str "w"], [.str " ", .str "0"]]⟩ =
      some ([("A", [("ct", JVal.obj [("Notfall", JVal.num 1)])]),
             ("C", [("ct", JVal.obj [("Notfall", JVal.num 2)])])], ⟨1, 0, 1, 0⟩) ∧
    (1 : Nat) = (⟨["Worker", "Notfall_ct"],
        [[.str "A", .str "1"], [.str "C", .str "w"], [.str " ", .str "0"]]⟩ : Table).rows.countP
      (addedP ["Worker", "Notfall_ct"]
        (existingOf Mode.add_only [("A", [("ct", JVal.obj [("Notfall", JVal.num 1)])])])
        Mode.add_only) := by
  refine ⟨by rfl, ?_⟩
  exact (C7_counters ["Notfall"] ["ct"]
    [("A", [("ct", JVal.obj [("Notfall", JVal.num 1)])])] Mode.add_only
    ⟨["Worker", "Notfall_ct"], [[.str "A", .str "1"], [.str "C", .str "w"], [.str " ", .str "0"]]⟩
    [("A", [("ct", JVal.obj [("Notfall", JVal.num 1)])]),
     ("C", [("ct", JVal.obj [("Notfall", JVal.num 2)])])] ⟨1, 0, 1, 0⟩ (by rfl)).1

/-- C8 counterexample: importing a table whose single row has a blank worker
name under AddOnly (twice — its resulting store is again the empty prior)
yields `skipped = 0` on the second run, while the claim demands all 1 rows
counted as skipped. -/
theorem C8_counterexample :
    import_from_csv ["Gyn"] ["mr"] [] Mode.add_only
        ⟨["Worker", "Gyn_mr"], [[.str "", .str "1"]]⟩ = some ([], ⟨0, 0, 0, 0⟩) ∧
    (⟨["Worker", "Gyn_mr"], [[.str "", .str "1"]]⟩ : Table).rows.length = 1 := by
  refine ⟨by rfl, by rfl⟩

/-- C8 (amended): AddOnly is idempotent on its own result: the second run
adds and updates nothing, counts every non-blank-named row (but not the
blank-named ones) as skipped, records no errors, and returns the first run's
store unchanged. -/
theorem C8_addonly_idempotent (skills mods : List String) (prior : Roster) (t : Table)
    (R1 R2 : Roster) (s1 s2 : Stats)
    (h1 : import_from_csv skills mods prior Mode.add_only t = some (R1, s1))
    (h2 : import_from_csv skills mods R1 Mode.add_only t = some (R2, s2)) :
    s2.added = 0 ∧ s2.updated = 0 ∧
    s2.skipped = t.rows.countP (fun r => !isBlankName (rowName t.cols r)) ∧
    s2.errors = 0 ∧ R2 = R1 := by
  have hR1 := congrArg Prod.fst (import_from_csv_eq skills mods prior Mode.add_only t R1 s1 h1)
  have hR2 := congrArg Prod.fst (import_from_csv_eq skills mods R1 Mode.add_only t R2 s2 h2)
  have hE2 := congrArg Prod.snd (import_from_csv_eq skills mods R1 Mode.add_only t R2 s2 h2)
  simp only at hR1 hR2 hE2
  have hif : ∀ x : Roster,
      (if Mode.add_only = Mode.replace then ([] : Roster) else existingOf Mode.add_only x) = x :=
    fun x => rfl
  rw [hif] at hR1 hR2 hE2
  have hpres : ∀ r ∈ t.rows, isBlankName (rowName t.cols r) = false →
      (dictGet R1 (rowName t.cols r)).isSome = true := by
    intro r hr hb
    rw [hR1, importLoop_get_isSome]
    by_cases hp : (dictGet (existingOf Mode.add_only prior) (rowName t.cols r)).isSome = true
    · have hp2 : (dictGet prior (rowName t.cols r)).isSome = true := hp
      rw [hp2]
      rfl
    · have hp' : (dictGet (existingOf Mode.add_only prior) (rowName t.cols r)).isSome = false := by
        cases hx : (dictGet (existingOf Mode.add_only prior) (rowName t.cols r)).isSome
        · rfl
        · exact absurd hx hp
      have hproc : processedRow t.cols (existingOf Mode.add_only prior) Mode.add_only r = true := by
        simp [processedRow, hb, hp']
      have hany : t.rows.any (fun r2 =>
          processedRow t.cols (existingOf Mode.add_only prior) Mode.add_only r2 &&
            (rowName t.cols r2 == rowName t.cols r)) = true :=
        List.any_eq_true.mpr ⟨r, hr, by simp [hproc]⟩
      rw [hany]
      simp
  have hskip : ∀ r ∈ t.rows,
      processedRow t.cols (existingOf Mode.add_only R1) Mode.add_only r = false := by
    intro r hr
    by_cases hb : isBlankName (rowName t.cols r) = true
    · simp [processedRow, hb]
    · have hb' : isBlankName (rowName t.cols r) = false := by
        cases hx : isBlankName (rowName t.cols r)
        · rfl
        · exact absurd hx hb
      have hin : (dictGet (existingOf Mode.add_only R1) (rowName t.cols r)).isSome = true :=
        hpres r hr hb'
      simp [processedRow, hb', hin]
  refine ⟨?_, ?_, ?_, ?_, ?_⟩
  · rw [hE2, importLoop_stats]
    simp only [Nat.zero_add]
    rw [List.countP_eq_zero]
    intro r hr
    simp [addedP, hskip r hr]
  · rw [hE2, importLoop_stats]
    simp only [Nat.zero_add]
    rw [List.countP_eq_zero]
    intro r hr
    simp [updatedP, hskip r hr]
  · rw [hE2, importLoop_stats]
    simp only [Nat.zero_add]
    apply List.countP_congr
    intro r hr
    constructor
    · intro hsk
      simp only [skippedP, Bool.and_eq_true] at hsk
      simp [hsk.1]
    · intro hnb
      simp only [Bool.not_eq_true'] at hnb
      have hin := hpres r hr hnb
      simp [skippedP, hnb]
      exact hin
  · rw [hE2, importLoop_stats]
    simp only [Nat.zero_add]
    unfold errTotal
    rw [List.filter_eq_nil_iff.mpr (fun r hr => by simp [hskip r hr])]
    rfl
  · rw [hR2, importLoop_roster_allSkipped skills mods t.cols (existingOf Mode.add_only R1)
      Mode.add_only t.rows (R1, ⟨0, 0, 0, 0⟩) hskip]

/-- Witness for the amended C8: a table with one collision, one fresh worker
and one blank row, AddOnly-imported twice; the second run skips both
non-blank rows and leaves the store identical. -/
theorem C8_addonly_idempotent_witness :
    import_from_csv ["Notfall"] ["ct"] [("A", [("ct", JVal.obj [("Notfall", JVal.num 1)])])]
        Mode.add_only
        ⟨["Worker", "Notfall_ct"], [[.str "A", .str "1"], [.str "C", .str "w"], [.str " ", .str "0"]]⟩ =
      some ([("A", [("ct", JVal.obj [("Notfall", JVal.num 1)])]),
             ("C", [("ct", JVal.obj [("Notfall", JVal.num 2)])])], ⟨1, 0, 1, 0⟩) ∧
    import_from_csv ["Notfall"] ["ct"]
        [("A", [("ct", JVal.obj [("Notfall", JVal.num 1)])]),
         ("C", [("ct", JVal.obj [("Notfall", JVal.num 2)])])]
        Mode.add_only
        ⟨["Worker", "Notfall_ct"], [[.str "A", .str "1"], [.str "C", .str "w"], [.str " ", .str "0"]]⟩ =
      some ([("A", [("ct", JVal.obj [("Notfall", JVal.num 1)])]),
             ("C", [("ct", JVal.obj [("Notfall", JVal.num 2)])])], ⟨0, 0, 2, 0⟩) ∧
    (2 : Nat) = (⟨["Worker", "Notfall_ct"],
        [[.str "A", .str "1"], [.str "C", .str "w"], [.str " ", .str "0"]]⟩ : Table).rows.countP
      (fun r => !isBlankName (rowName ["Worker", "Notfall_ct"] r)) := by
  refine ⟨by rfl, by rfl, ?_⟩
  exact (C8_addonly_idempotent ["Notfall"] ["ct"]
    [("A", [("ct", JVal.obj [("Notfall", JVal.num 1)])])]
    ⟨["Worker", "Notfall_ct"], [[.str "A", .str "1"], [.str "C", .str "w"], [.str " ", .str "0"]]⟩
    [("A", [("ct", JVal.obj [("Notfall", JVal.num 1)])]),
     ("C", [("ct", JVal.obj [("Notfall", JVal.num 2)])])]
    [("A", [("ct", JVal.obj [("Notfall", JVal.num 1)])]),
     ("C", [("ct", JVal.obj [("Notfall", JVal.num 2)])])]
    ⟨1, 0, 1, 0⟩ ⟨0, 0, 2, 0⟩ (by rfl) (by rfl)).2.2.1

/-- C10: every record the import builds is fully dense: its keys are exactly
the configured modalities (each exactly once), each modality holds a mapping
whose keys are exactly the configured skills (each exactly once); and under
Replace every record present in the output store is such a built record,
hence dense, even though the store's data model permits absent keys. -/
theorem C10_dense_records (skills mods cols : List String) (r : List RawCell) :
    ((buildRecord skills mods cols r).1.map Prod.fst).Nodup ∧
    (∀ m, (dictGet (buildRecord skills mods cols r).1 m).isSome = true ↔ m ∈ mods) ∧
    (∀ m ∈ mods, ∃ inner,
      dictGet (buildRecord skills mods cols r).1 m = some (JVal.obj inner) ∧
      (inner.map Prod.fst).Nodup ∧
      (∀ s, (dictGet inner s).isSome = true ↔ s ∈ skills)) ∧
    (∀ prior t R stats, t.cols = cols →
      import_from_csv skills mods prior Mode.replace t = some (R, stats) →
      ∀ w rec, dictGet R w = some rec →
        ((rec.map Prod.fst).Nodup ∧
          ∀ m, (dictGet rec m).isSome = true ↔ m ∈ mods)) := by
  refine ⟨buildRecord_nodupKeys skills mods cols r, ?_, ?_, ?_⟩
  · intro m
    rw [buildRecord_get_isSome]
    simp [List.any_eq_true]
  · intro m hm
    refine ⟨(buildModRow skills cols r m).1,
      buildRecord_get skills mods cols r m hm,
      buildModRow_nodupKeys skills cols r m, ?_⟩
    intro s
    rw [buildModRow_get_isSome]
    simp [List.any_eq_true]
  · rintro prior t R stats rfl h w rec hrec
    have hR : R = (t.rows.foldl (importStep skills mods t.cols (existingOf Mode.replace prior)
        Mode.replace) ((if Mode.replace = Mode.replace then [] else
          existingOf Mode.replace prior), ⟨0, 0, 0, 0⟩)).1 :=
      congrArg Prod.fst (import_from_csv_eq skills mods prior Mode.replace t R stats h)
    have hsome : (dictGet R w).isSome = true := by rw [hrec]; rfl
    rw [hR, importLoop_get_isSome] at hsome
    have hsome2 : (false || t.rows.any fun r2 =>
        processedRow t.cols (existingOf Mode.replace prior) Mode.replace r2 &&
          (rowName t.cols r2 == w)) = true := hsome
    simp only [Bool.false_or, List.any_eq_true, Bool.and_eq_true, beq_iff_eq] at hsome2
    obtain ⟨r2, hr2, hp2, hn2⟩ := hsome2
    obtain ⟨r3, _, _, hn3, heq3⟩ := importLoop_get_processed skills mods t.cols
      (existingOf Mode.replace prior) Mode.replace t.rows
      ((if Mode.replace = Mode.replace then [] else existingOf Mode.replace prior), ⟨0, 0, 0, 0⟩)
      w ⟨r2, hr2, hp2, hn2⟩
    rw [hR, heq3] at hrec
    have hrec2 : rec = (buildRecord skills mods t.cols r3).1 := (Option.some.inj hrec).symm
    subst hrec2
    refine ⟨buildRecord_nodupKeys skills mods t.cols r3, ?_⟩
    intro m
    rw [buildRecord_get_isSome]
    simp [List.any_eq_true]

/-- Witness for C10 at a concrete row with one decodable cell, one failing
cell and one absent column. -/
theorem C10_dense_records_witness :
    "ct" ∈ (["ct", "mr"] : List String) ∧
    dictGet (buildRecord ["Notfall", "Privat"] ["ct", "mr"] ["Worker", "Notfall_ct"]
        [.str "B", .str "maybe"]).1 "ct" =
      some (JVal.obj [("Notfall", JVal.num 0), ("Privat", JVal.num 0)]) := by
  refine ⟨by decide, ?_⟩
  obtain ⟨inner, hget, hnodup, hkeys⟩ :=
    (C10_dense_records ["Notfall", "Privat"] ["ct", "mr"] ["Worker", "Notfall_ct"]
      [.str "B", .str "maybe"]).2.2.1 "ct" (by decide)
  rw [hget]
  have : inner = [("Notfall", JVal.num 0), ("Privat", JVal.num 0)] := by
    have h2 := hget
    rw [buildRecord_get ["Notfall", "Privat"] ["ct", "mr"] ["Worker", "Notfall_ct"]
      [.str "B", .str "maybe"] "ct" (by decide)] at h2
    have h3 := Option.some.inj h2
    have h4 := JVal.obj.inj h3
    rw [← h4]
    rfl
  rw [this]

/-- C4: export produces, for a non-empty store, the header `Worker` followed
by the column vocabulary (modality-major, skill-minor), then one row per
worker in store iteration order whose first cell is the worker name and
whose remaining cells are, per `(mod, skill)` pair in the same order, the
encoded value of the per-record lookup `exportCellVal` — which treats the
record as hierarchical iff its first entry's value is a mapping, reads
`record[mod][skill]` on the hierarchical path and `record[skill_mod]` on the
flat path, and defaults to 0 whenever a key is absent.  Stated for
duplicate-free column vocabularies (Python's row dictionary collapses
colliding keys) and shape-uniform records (mixed records fault in the
source). -/
theorem C4_export_shape (skills mods : List String) (roster : Roster)
    (hne : roster ≠ [])
    (hnd : ("Worker" :: colKeys skills mods).Nodup)
    (hwf : ∀ p ∈ roster, recWFb p.2 = true) :
    export_to_csv skills mods roster =
      some ("Worker" :: colKeys skills mods,
        roster.map fun p => p.1 :: colCells skills p.2 mods) ∧
    (∀ wd : JRec, rowIsHier wd =
      (match wd.head? with
       | some p => !p.2.isNumB
       | none => false)) ∧
    (∀ wd mod skill, rowIsHier wd = true → dictGet wd mod = none →
      exportCellVal wd mod skill = 0) ∧
    (∀ wd mod skill (m : List (String × JVal)), rowIsHier wd = true →
      dictGet wd mod = some (JVal.obj m) → dictGet m skill = none →
      exportCellVal wd mod skill = 0) ∧
    (∀ wd mod skill, rowIsHier wd = false →
      dictGet wd (skill ++ "_" ++ mod) = none → exportCellVal wd mod skill = 0) := by
  refine ⟨?_, ?_, ?_, ?_, ?_⟩
  · unfold export_to_csv
    have hempty : roster.isEmpty = false := by
      cases roster with
      | nil => exact absurd rfl hne
      | cons p l => rfl
    rw [hempty]
    simp only [Bool.false_eq_true, if_false]
    rw [export_columns_eq]
    congr 1
    congr 1
    refine List.map_congr_left ?_
    intro p _
    rw [← export_columns_eq]
    exact export_row_cells skills mods p.1 p.2 hnd
  · intro wd
    cases wd with
    | nil => rfl
    | cons p l =>
      obtain ⟨k, v⟩ := p
      cases v <;> rfl
  · intro wd mod skill hh hnone
    simp [exportCellVal, hh, hnone]
  · intro wd mod skill m hh hm hnone
    simp [exportCellVal, hh, hm, hnone]
  · intro wd mod skill hh hnone
    simp [exportCellVal, hh, hnone]

/-- Witness for C4: a two-worker store — one hierarchical record, one legacy
flat record — exported over one skill and one modality. -/
theorem C4_export_shape_witness :
    ([("A", [("ct", JVal.obj [("Notfall", JVal.num 1)])]),
      ("B", [("Notfall_ct", JVal.num 2)])] : Roster) ≠ [] ∧
    export_to_csv ["Notfall"] ["ct"]
        [("A", [("ct", JVal.obj [("Notfall", JVal.num 1)])]),
         ("B", [("Notfall_ct", JVal.num 2)])] =
      some (["Worker", "Notfall_ct"], [["A", "1"], ["B", "w"]]) := by
  refine ⟨by simp, ?_⟩
  have h := (C4_export_shape ["Notfall"] ["ct"]
    [("A", [("ct", JVal.obj [("Notfall", JVal.num 1)])]),
     ("B", [("Notfall_ct", JVal.num 2)])] (by simp) (by decide) (by decide)).1
  rw [h]
  rfl

/-- C5: validation succeeds iff the `Worker` column exists and every cell of
every column both present in the table and in the expected vocabulary
decodes; each recorded failure is exactly a (rendered worker, column, raw
cell) triple of a failing cell of such a column.  Missing or extra columns
never influence the verdict, and validation is a pure function of the table
(it neither receives nor produces a store). -/
theorem C5_validate (skills mods : List String) (t : Table) :
    (validate_csv skills mods t = true ↔
      ("Worker" ∈ t.cols ∧
        ∀ c ∈ t.cols, c ∈ colKeys skills mods → c ≠ "Worker" →
          ∀ r ∈ t.rows, isOkB (parse_value (cellAt t.cols r c)) = true)) ∧
    (∀ w c v, (w, c, v) ∈ validationErrors skills mods t ↔
      (c ∈ colKeys skills mods ∧ c ≠ "Worker" ∧ c ∈ t.cols ∧
        ∃ r ∈ t.rows, cellAt t.cols r c = v ∧ isOkB (parse_value v) = false ∧
          w = pyStr (cellAt t.cols r "Worker"))) := by
  constructor
  · unfold validate_csv
    by_cases hW : "Worker" ∈ t.cols
    · rw [if_pos hW, List.isEmpty_iff, validationErrors_eq_nil]
      constructor
      · intro h
        exact ⟨hW, fun c hc hck hcw r hr => h c hc hck hcw r hr⟩
      · intro h
        exact h.2
    · rw [if_neg hW]
      constructor
      · intro h
        cases h
      · intro h
        exact absurd h.1 hW
  · exact mem_validationErrors skills mods t

/-- Witness for C5: a table with one `maybe` cell fails and records exactly
the offending triple; the validator's verdict at that table. -/
theorem C5_validate_witness :
    validate_csv ["Notfall"] ["ct"] ⟨["Worker", "Notfall_ct"], [[.str "A", .str "maybe"]]⟩ =
      false ∧
    ("A", "Notfall_ct", RawCell.str "maybe") ∈
      validationErrors ["Notfall"] ["ct"]
        ⟨["Worker", "Notfall_ct"], [[.str "A", .str "maybe"]]⟩ := by
  refine ⟨by rfl, ?_⟩
  exact ((C5_validate ["Notfall"] ["ct"]
    ⟨["Worker", "Notfall_ct"], [[.str "A", .str "maybe"]]⟩).2
    "A" "Notfall_ct" (RawCell.str "maybe")).mpr
    ⟨by decide, by decide, by decide,
      [.str "A", .str "maybe"], by decide, by rfl, by rfl, by rfl⟩
